import Mathlib

/-!
Verification development for the Scholar Seeker chat front-end
(`src/streamlit_app.py`).  The testable core of the program consists of
two pure text post-processing functions (`extract_urls`,
`replace_citation_markers`), the streaming-accumulation logic of
`generate_assistant_response`, and its error handling.  These are
shallowly embedded below; strings are modelled as Lean `String`
(logically a list of characters), and Python's `re.sub` left-to-right
scan-and-replace is modelled by an explicit character scanner.

Modelling notes:
* Python's `\d` and `\S` are Unicode-aware; the embedding uses the ASCII
  digit test and the ASCII whitespace set, which agree with them on all
  ASCII text (the only texts the claims exercise).
* `re.sub` scans left to right, tries the pattern at each position,
  replaces the leftmost match, and resumes scanning immediately after
  the replaced span (never inside the replacement text).
-/

namespace ScholarSeeker

/-- Take the longest run of characters satisfying `p` from the front of a
list, returning the run and the remainder (the model of a greedy
character-class match such as `\d+` or `\S+`). -/
def spanTake (p : Char → Bool) : List Char → List Char × List Char
  | [] => ([], [])
  | c :: cs =>
    if p c then
      let r := spanTake p cs
      (c :: r.1, r.2)
    else
      ([], c :: cs)

theorem spanTake_append (p : Char → Bool) :
    ∀ l : List Char, (spanTake p l).1 ++ (spanTake p l).2 = l := by
  intro l
  induction l with
  | nil => simp [spanTake]
  | cons c cs ih =>
    by_cases h : p c = true
    · simp [spanTake, h, ih]
    · simp [spanTake, h]

theorem spanTake_eq_of (p : Char → Bool) :
    ∀ (a b : List Char), (∀ c ∈ a, p c = true) →
      (∀ d t, b = d :: t → p d = false) →
      spanTake p (a ++ b) = (a, b) := by
  intro a
  induction a with
  | nil =>
    intro b _ hb
    cases b with
    | nil => simp [spanTake]
    | cons d t => simp [spanTake, hb d t rfl]
  | cons c cs ih =>
    intro b ha hb
    have hc : p c = true := ha c (by simp)
    have h2 := ih b (fun x hx => ha x (by simp [hx])) hb
    simp [spanTake, hc, h2]

/-- Parse a run of decimal digits, as Python's `int` does on the digit
group captured by `\[(\d+)\]`. -/
def parseNat (ds : List Char) : Nat :=
  ds.foldl (fun a c => a * 10 + (c.toNat - 48)) 0

/-- The replacement text built by `replace_marker` for an in-range
marker: `<a href="{url}" target="_blank">{marker}</a>`. -/
def anchorChars (url : String) (marker : List Char) : List Char :=
  "<a href=\"".data ++ url.data ++ "\" target=\"_blank\">".data
    ++ marker ++ "</a>".data

/-- Model of one attempt of the pattern `\[(\d+)\]` at the current
position: succeeds exactly when the text starts with `[`, one or more
digits, `]`; returns the digit group and the rest of the text. -/
def markerAt : List Char → Option (List Char × List Char)
  | [] => none
  | c :: cs =>
    if c = '[' then
      let sp := spanTake Char.isDigit cs
      if sp.1.isEmpty then none
      else
        match sp.2 with
        | ']' :: rest => some (sp.1, rest)
        | _ => none
    else none

/-- The body of `replace_marker` in `replace_citation_markers`: compute
`index = int(group) - 1`; if `0 <= index < len(citations)` produce the
anchor with `citations[index]` as href and the marker as label,
otherwise return the marker unchanged. -/
def citRender (citations : List String) (ds : List Char) : List Char :=
  let index : Int := (parseNat ds : Int) - 1
  if 0 ≤ index ∧ index < (citations.length : Int) then
    anchorChars (citations.getD index.toNat "") ('[' :: (ds ++ [']']))
  else
    '[' :: (ds ++ [']'])

/-- Fuel-indexed scanner for `re.sub(r'\[(\d+)\]', replace_marker, text)`:
at each position, if the marker pattern matches, emit the replacement and
resume after the match; otherwise copy one character and advance.  The
fuel only serves structural recursion; one unit is spent per scan
position and each step consumes at least one character, so fuel equal to
the length of the text is always sufficient. -/
def replaceAuxF (citations : List String) : Nat → List Char → List Char
  | 0, l => l
  | _ + 1, [] => []
  | fuel + 1, c :: cs =>
    match markerAt (c :: cs) with
    | some (ds, rest) => citRender citations ds ++ replaceAuxF citations fuel rest
    | none => c :: replaceAuxF citations fuel cs

/-- The scan of a character list with sufficient fuel. -/
def replaceAux (citations : List String) (l : List Char) : List Char :=
  replaceAuxF citations l.length l

/-- `replace_citation_markers(text, citations)` from
`src/streamlit_app.py`: replace each `[n]` marker whose (1-based) number
indexes into `citations` by an anchor opening in a new tab, leaving
out-of-range markers and all other text unchanged. -/
def replace_citation_markers (text : String) (citations : List String) : String :=
  ⟨replaceAux citations text.data⟩

theorem markerAt_nil : markerAt [] = none := rfl

theorem markerAt_cons_ne {c : Char} (cs : List Char) (h : c ≠ '[') :
    markerAt (c :: cs) = none := by
  simp [markerAt, h]

theorem markerAt_mk (ds t : List Char) (hne : ds ≠ [])
    (hd : ∀ c ∈ ds, c.isDigit = true) :
    markerAt ('[' :: (ds ++ ']' :: t)) = some (ds, t) := by
  have hsp : spanTake Char.isDigit (ds ++ ']' :: t) = (ds, ']' :: t) := by
    apply spanTake_eq_of Char.isDigit ds (']' :: t) hd
    intro d s h
    cases h
    rfl
  simp [markerAt, hsp, hne]

theorem markerAt_some_shape {l ds rest : List Char}
    (h : markerAt l = some (ds, rest)) :
    l = '[' :: (ds ++ ']' :: rest) := by
  cases l with
  | nil => simp [markerAt] at h
  | cons c cs =>
    by_cases hc : c = '['
    · subst hc
      simp only [markerAt, if_pos rfl] at h
      by_cases he : (spanTake Char.isDigit cs).1.isEmpty
      · simp [he] at h
      · simp only [he, if_neg, Bool.false_eq_true, not_false_iff, ite_false] at h
        cases hsp : (spanTake Char.isDigit cs).2 with
        | nil => rw [hsp] at h; simp at h
        | cons d t =>
          rw [hsp] at h
          by_cases hd : d = ']'
          · subst hd
            simp at h
            obtain ⟨h1, h2⟩ := h
            have := spanTake_append Char.isDigit cs
            rw [h1, hsp, h2] at this
            rw [← this]
          · simp [hd] at h
    · rw [markerAt_cons_ne cs hc] at h
      cases h

theorem markerAt_some_length {l ds rest : List Char}
    (h : markerAt l = some (ds, rest)) :
    l.length = ds.length + rest.length + 2 := by
  rw [markerAt_some_shape h]
  simp
  omega

theorem replaceAuxF_fuel (citations : List String) :
    ∀ f1 f2 l, l.length ≤ f1 → l.length ≤ f2 →
      replaceAuxF citations f1 l = replaceAuxF citations f2 l := by
  intro f1
  induction f1 with
  | zero =>
    intro f2 l h1 _
    have hl : l = [] := List.eq_nil_of_length_eq_zero (Nat.le_zero.mp h1)
    subst hl
    cases f2 <;> rfl
  | succ f ih =>
    intro f2 l h1 h2
    cases l with
    | nil => cases f2 <;> rfl
    | cons c cs =>
      cases f2 with
      | zero => simp at h2
      | succ f2' =>
        simp only [List.length_cons, Nat.succ_le_succ_iff] at h1 h2
        cases hm : markerAt (c :: cs) with
        | none =>
          simp only [replaceAuxF, hm]
          rw [ih f2' cs h1 h2]
        | some p =>
          obtain ⟨ds, rest⟩ := p
          have hlen := markerAt_some_length hm
          simp only [List.length_cons] at hlen
          simp only [replaceAuxF, hm]
          rw [ih f2' rest (by omega) (by omega)]

theorem replaceAux_cons_none (citations : List String) {c : Char}
    {cs : List Char} (h : markerAt (c :: cs) = none) :
    replaceAux citations (c :: cs) = c :: replaceAux citations cs := by
  simp only [replaceAux, List.length_cons, replaceAuxF, h]

theorem replaceAux_cons_some (citations : List String) {l ds rest : List Char}
    (h : markerAt l = some (ds, rest)) :
    replaceAux citations l = citRender citations ds ++ replaceAux citations rest := by
  have hsh := markerAt_some_shape h
  have hlen := markerAt_some_length h
  subst hsh
  simp only [replaceAux, replaceAuxF, h]
  congr 1
  apply replaceAuxF_fuel
  · simp at hlen ⊢
    omega
  · exact Nat.le_refl _

theorem replaceAux_copy (citations : List String) :
    ∀ s t : List Char, (∀ c ∈ s, c ≠ '[') →
      replaceAux citations (s ++ t) = s ++ replaceAux citations t := by
  intro s
  induction s with
  | nil => intro t _; rfl
  | cons c cs ih =>
    intro t hs
    have hc : c ≠ '[' := hs c (by simp)
    rw [List.cons_append,
      replaceAux_cons_none citations (markerAt_cons_ne _ hc),
      ih t (fun x hx => hs x (by simp [hx])), List.cons_append]

/-!
### Tokenized view of a text for the citation scanner

A text is presented as a list of tokens: literal segments (which,
containing no `[`, can never start a marker match) and citation markers
`[ds]` with `ds` a nonempty digit run.  This decomposition mirrors the
segmentation `re.sub` itself performs on the text.
-/

/-- A segment of a text, seen through the citation-marker pattern. -/
inductive CTok where
  | lit : List Char → CTok
  | marker : List Char → CTok
deriving DecidableEq

/-- The characters a token contributes to the text. -/
def cChars : CTok → List Char
  | .lit s => s
  | .marker ds => '[' :: (ds ++ [']'])

/-- What `replace_citation_markers` produces for the token: literal
segments are copied; a marker becomes `replace_marker`'s output. -/
def cRender (citations : List String) : CTok → List Char
  | .lit s => s
  | .marker ds => citRender citations ds

/-- Well-formedness of a token: a literal segment contains no `[` (so no
marker match can begin inside it), and a marker token carries a nonempty
run of digits. -/
def cWf : CTok → Bool
  | .lit s => s.all (fun c => !(c = '[' : Bool))
  | .marker ds => !ds.isEmpty && ds.all Char.isDigit

/-- The text a token list denotes. -/
def cFlat (ts : List CTok) : List Char := (ts.map cChars).flatten

theorem replaceAux_tokens (citations : List String) :
    ∀ ts : List CTok, ts.all cWf = true →
      replaceAux citations (cFlat ts) = (ts.map (cRender citations)).flatten := by
  intro ts
  induction ts with
  | nil => intro _; rfl
  | cons t rest ih =>
    intro h
    simp only [List.all_cons, Bool.and_eq_true] at h
    obtain ⟨ht, hrest⟩ := h
    cases t with
    | lit s =>
      have hs : ∀ c ∈ s, c ≠ '[' := by
        intro c hc
        have := List.all_eq_true.mp ht c hc
        simpa using this
      have hflat : cFlat (CTok.lit s :: rest) = s ++ cFlat rest := by
        simp [cFlat, cChars]
      rw [hflat, replaceAux_copy citations s (cFlat rest) hs, ih hrest]
      simp [cRender]
    | marker ds =>
      simp only [cWf, Bool.and_eq_true, Bool.not_eq_true',
        List.isEmpty_eq_false_iff_exists_mem] at ht
      have hne : ds ≠ [] := by
        rcases ht with ⟨h1, _⟩
        intro hd
        subst hd
        simp [List.isEmpty] at h1
      have hd : ∀ c ∈ ds, c.isDigit = true := by
        rcases ht with ⟨_, h2⟩
        exact List.all_eq_true.mp h2
      have hflat : cFlat (CTok.marker ds :: rest)
          = '[' :: (ds ++ ']' :: cFlat rest) := by
        simp [cFlat, cChars]
      rw [hflat,
        replaceAux_cons_some citations (markerAt_mk ds (cFlat rest) hne hd),
        ih hrest]
      simp [cRender]

/-- **C1.** `replace_citation_markers` replaces each marker `[n]` whose
number `n` satisfies `1 ≤ n ≤ length citations` with an anchor whose
href is `citations[n-1]`, opening in a new tab (`target="_blank"`), with
the original marker text `[n]` as the visible label; out-of-range
markers and all literal (non-marker) text are left unchanged.  The text
is presented as any well-formed token decomposition. -/
theorem replace_citation_markers_tokens (citations : List String)
    (ts : List CTok) (h : ts.all cWf = true) :
    replace_citation_markers ⟨cFlat ts⟩ citations
      = ⟨(ts.map (cRender citations)).flatten⟩ :=
  congrArg String.mk (replaceAux_tokens citations ts h)

/-- Witness for C1 at the spec's own example: with a one-element
citation list, `[1]` becomes an anchor to `http://a.com` labelled `[1]`,
and the out-of-range `[2]` is left as literal text. -/
theorem replace_citation_markers_tokens_witness :
    ([CTok.lit "See ".data, CTok.marker ['1'], CTok.lit " and ".data,
        CTok.marker ['2'], CTok.lit ".".data].all cWf = true)
      ∧ replace_citation_markers "See [1] and [2]." ["http://a.com"]
        = "See <a href=\"http://a.com\" target=\"_blank\">[1]</a> and [2]." :=
  ⟨by decide,
    replace_citation_markers_tokens ["http://a.com"]
      [CTok.lit "See ".data, CTok.marker ['1'], CTok.lit " and ".data,
        CTok.marker ['2'], CTok.lit ".".data] (by decide)⟩

theorem citRender_nil (ds : List Char) :
    citRender [] ds = '[' :: (ds ++ [']']) := by
  simp only [citRender, List.length_nil, Nat.cast_zero]
  rw [if_neg]
  intro h
  omega

theorem replaceAux_nil_citations :
    ∀ (n : Nat) (l : List Char), l.length ≤ n → replaceAux [] l = l := by
  intro n
  induction n with
  | zero =>
    intro l h
    have hl : l = [] := List.eq_nil_of_length_eq_zero (Nat.le_zero.mp h)
    subst hl
    rfl
  | succ n ih =>
    intro l h
    cases l with
    | nil => rfl
    | cons c cs =>
      cases hm : markerAt (c :: cs) with
      | none =>
        rw [replaceAux_cons_none [] hm, ih cs (by simpa using h)]
      | some p =>
        obtain ⟨ds, rest⟩ := p
        have hsh := markerAt_some_shape hm
        have hlen := markerAt_some_length hm
        rw [replaceAux_cons_some [] hm, citRender_nil,
          ih rest (by simp at h hlen; omega), hsh]
        simp

/-- **C10.** With an empty citation list every marker is out of range,
so `replace_citation_markers` returns the text unchanged: it is the
identity function. -/
theorem replace_citation_markers_empty_id (text : String) :
    replace_citation_markers text [] = text := by
  have h := replaceAux_nil_citations text.data.length text.data (Nat.le_refl _)
  cases text with
  | mk data => exact congrArg String.mk h

/-- **C2 counterexample.** The claim that re-applying
`replace_citation_markers` to its own output does not re-match a
previously replaced marker is false: the anchor's visible label `[1]`
is standalone `[digits]` text in the output string, so a second
application wraps it again, yielding a nested anchor. -/
theorem replace_citation_markers_rewrap_cex :
    replace_citation_markers
        (replace_citation_markers "[1]" ["http://a.com"]) ["http://a.com"]
      ≠ replace_citation_markers "[1]" ["http://a.com"] := by
  decide

/-- **C2 (amended).** `replace_citation_markers` is idempotent on texts
it leaves unchanged; but re-applying it to output in which a marker was
replaced matches the anchor's visible label again and wraps it in a
second, nested anchor. -/
theorem replace_citation_markers_chain :
    (∀ (t : String) (citations : List String),
        replace_citation_markers t citations = t →
          replace_citation_markers (replace_citation_markers t citations) citations
            = replace_citation_markers t citations)
      ∧ replace_citation_markers
          (replace_citation_markers "[1]" ["http://a.com"]) ["http://a.com"]
        = ("<a href=\"http://a.com\" target=\"_blank\">"
            ++ "<a href=\"http://a.com\" target=\"_blank\">[1]</a></a>" : String) := by
  constructor
  · intro t citations h
    rw [h, h]
  · decide

/-- Witness for C2's amended theorem: `[2]` is out of range for a
one-element citation list, is left unchanged, and hence is a fixed point
on which the function is idempotent; the nested-anchor equation is
closed. -/
theorem replace_citation_markers_chain_witness :
    replace_citation_markers "[2]" ["http://a.com"] = "[2]"
      ∧ replace_citation_markers
          (replace_citation_markers "[2]" ["http://a.com"]) ["http://a.com"]
        = replace_citation_markers "[2]" ["http://a.com"] :=
  ⟨by decide, replace_citation_markers_chain.1 "[2]" ["http://a.com"] (by decide)⟩

/-!
### URL linkification (`extract_urls`)

`extract_urls` applies `re.sub(r'https?://\S+', replace_url, text)`,
where `replace_url` wraps the match `url` as the markdown link
`[url](url)`.  The scanner below models the pattern: the literal scheme
`https://` (preferred, as `s?` is greedy) or `http://`, followed by a
maximal nonempty run of non-whitespace characters.
-/

/-- Python's `\s` whitespace set, restricted to ASCII. -/
def isSpaceChar (c : Char) : Bool :=
  c = ' ' || c = '\t' || c = '\n' || c = '\r' || c = '\x0b' || c = '\x0c'

/-- Match a literal character sequence at the front of the text,
returning the remainder on success. -/
def dropLit : List Char → List Char → Option (List Char)
  | [], l => some l
  | _ :: _, [] => none
  | p :: ps, c :: cs => if c = p then dropLit ps cs else none

/-- Try the URL pattern with one concrete scheme: the scheme literally,
then one-or-more non-whitespace characters, taken greedily.  Returns the
whole match and the rest of the text. -/
def urlMatchWith (scheme : List Char) (l : List Char) :
    Option (List Char × List Char) :=
  match dropLit scheme l with
  | none => none
  | some r =>
    let sp := spanTake (fun c => !isSpaceChar c) r
    if sp.1.isEmpty then none else some (scheme ++ sp.1, sp.2)

def httpsScheme : List Char := "https://".data

def httpScheme : List Char := "http://".data

/-- One attempt of `https?://\S+` at the current position: the greedy
`s?` first tries `https://`, then falls back to `http://`. -/
def urlAt (l : List Char) : Option (List Char × List Char) :=
  match urlMatchWith httpsScheme l with
  | some r => some r
  | none => urlMatchWith httpScheme l

/-- `replace_url`'s output: the markdown link `[{url}]({url})`, label
and target both the matched text verbatim. -/
def mdLink (u : List Char) : List Char :=
  '[' :: (u ++ ']' :: '(' :: (u ++ [')']))

/-- Fuel-indexed scanner for `re.sub(r'https?://\S+', replace_url, text)`;
as with `replaceAuxF`, fuel equal to the text length always suffices. -/
def extractAuxF : Nat → List Char → List Char
  | 0, l => l
  | _ + 1, [] => []
  | fuel + 1, c :: cs =>
    match urlAt (c :: cs) with
    | some (u, rest) => mdLink u ++ extractAuxF fuel rest
    | none => c :: extractAuxF fuel cs

def extractAux (l : List Char) : List Char := extractAuxF l.length l

/-- `extract_urls(text)` from `src/streamlit_app.py`: every URL match is
replaced by a markdown hyperlink whose label and target are the matched
substring. -/
def extract_urls (text : String) : String := ⟨extractAux text.data⟩

theorem dropLit_some :
    ∀ p l r : List Char, dropLit p l = some r → l = p ++ r := by
  intro p
  induction p with
  | nil =>
    intro l r h
    simp only [dropLit, Option.some.injEq] at h
    simp [h]
  | cons x xs ih =>
    intro l r h
    cases l with
    | nil => simp [dropLit] at h
    | cons c cs =>
      simp only [dropLit] at h
      by_cases hc : c = x
      · subst hc
        simp only [if_pos rfl] at h
        rw [List.cons_append, ih cs r h]
      · simp [hc] at h

theorem urlMatchWith_some {scheme l u rest : List Char}
    (h : urlMatchWith scheme l = some (u, rest)) :
    l = u ++ rest ∧ scheme.length ≤ u.length := by
  unfold urlMatchWith at h
  cases hd : dropLit scheme l with
  | none => rw [hd] at h; cases h
  | some r =>
    rw [hd] at h
    simp only at h
    by_cases he : (spanTake (fun c => !isSpaceChar c) r).1.isEmpty
    · simp [he] at h
    · simp only [he, Bool.false_eq_true, not_false_iff, if_neg,
        Option.some.injEq, Prod.mk.injEq] at h
      obtain ⟨h1, h2⟩ := h
      have hr := spanTake_append (fun c => !isSpaceChar c) r
      have hl := dropLit_some scheme l r hd
      constructor
      · rw [hl, ← h1, ← h2, List.append_assoc, hr]
      · rw [← h1]
        simp

theorem urlAt_some {l u rest : List Char} (h : urlAt l = some (u, rest)) :
    l = u ++ rest ∧ 0 < u.length := by
  unfold urlAt at h
  cases h1 : urlMatchWith httpsScheme l with
  | some r =>
    rw [h1] at h
    cases h
    have := urlMatchWith_some h1
    exact ⟨this.1, by have := this.2; simp [httpsScheme] at this; omega⟩
  | none =>
    rw [h1] at h
    have := urlMatchWith_some h
    exact ⟨this.1, by have := this.2; simp [httpScheme] at this; omega⟩

theorem urlAt_some_length {l u rest : List Char}
    (h : urlAt l = some (u, rest)) :
    l.length = u.length + rest.length ∧ 0 < u.length := by
  obtain ⟨h1, h2⟩ := urlAt_some h
  exact ⟨by rw [h1]; simp, h2⟩

theorem extractAuxF_fuel :
    ∀ f1 f2 l, l.length ≤ f1 → l.length ≤ f2 →
      extractAuxF f1 l = extractAuxF f2 l := by
  intro f1
  induction f1 with
  | zero =>
    intro f2 l h1 _
    have hl : l = [] := List.eq_nil_of_length_eq_zero (Nat.le_zero.mp h1)
    subst hl
    cases f2 <;> rfl
  | succ f ih =>
    intro f2 l h1 h2
    cases l with
    | nil => cases f2 <;> rfl
    | cons c cs =>
      cases f2 with
      | zero => simp at h2
      | succ f2' =>
        simp only [List.length_cons, Nat.succ_le_succ_iff] at h1 h2
        cases hm : urlAt (c :: cs) with
        | none =>
          simp only [extractAuxF, hm]
          rw [ih f2' cs h1 h2]
        | some p =>
          obtain ⟨u, rest⟩ := p
          have hlen := urlAt_some_length hm
          simp only [List.length_cons] at hlen
          simp only [extractAuxF, hm]
          rw [ih f2' rest (by omega) (by omega)]

theorem extractAux_cons_none {c : Char} {cs : List Char}
    (h : urlAt (c :: cs) = none) :
    extractAux (c :: cs) = c :: extractAux cs := by
  simp only [extractAux, List.length_cons, extractAuxF, h]

theorem extractAux_cons_some {l u rest : List Char}
    (h : urlAt l = some (u, rest)) :
    extractAux l = mdLink u ++ extractAux rest := by
  have hlen := urlAt_some_length h
  cases l with
  | nil =>
    obtain ⟨hl, hu⟩ := hlen
    simp at hl
    omega
  | cons c cs =>
    simp only [extractAux, List.length_cons, extractAuxF, h]
    congr 1
    apply extractAuxF_fuel
    · simp only [List.length_cons] at hlen
      omega
    · exact Nat.le_refl _

/-- No URL match begins at any position inside `s`, where `t` is the
text that follows `s` (so matches that would straddle the boundary are
also excluded). -/
def noUrlWithin : List Char → List Char → Bool
  | [], _ => true
  | c :: cs, t => (urlAt (c :: (cs ++ t))).isNone && noUrlWithin cs t

theorem extractAux_copy :
    ∀ s t : List Char, noUrlWithin s t = true →
      extractAux (s ++ t) = s ++ extractAux t := by
  intro s
  induction s with
  | nil => intro t _; rfl
  | cons c cs ih =>
    intro t h
    simp only [noUrlWithin, Bool.and_eq_true, Option.isNone_iff_eq_none] at h
    obtain ⟨h1, h2⟩ := h
    rw [List.cons_append, extractAux_cons_none h1, ih t h2, List.cons_append]

/-!
### Tokenized view of a text for the URL scanner
-/

/-- A segment of a text, seen through the URL pattern. -/
inductive UTok where
  | lit : List Char → UTok
  | url : List Char → UTok
deriving DecidableEq

def uChars : UTok → List Char
  | .lit s => s
  | .url u => u

def uFlat (ts : List UTok) : List Char := (ts.map uChars).flatten

/-- What `extract_urls` produces for the token: literal segments are
copied; a URL becomes the markdown link with the matched substring,
verbatim, as both label and target. -/
def uRender : UTok → List Char
  | .lit s => s
  | .url u => mdLink u

/-- Well-formedness of a token decomposition: no URL match begins inside
a literal segment (given everything that follows it), and at each `url`
token the pattern matches exactly that token's characters — i.e. the
decomposition is the leftmost-match segmentation the scanner itself
produces. -/
def uWf : List UTok → Bool
  | [] => true
  | .lit s :: rest => noUrlWithin s (uFlat rest) && uWf rest
  | .url u :: rest =>
    decide (urlAt (u ++ uFlat rest) = some (u, uFlat rest)) && uWf rest

theorem extractAux_tokens :
    ∀ ts : List UTok, uWf ts = true →
      extractAux (uFlat ts) = (ts.map uRender).flatten := by
  intro ts
  induction ts with
  | nil => intro _; rfl
  | cons t rest ih =>
    intro h
    cases t with
    | lit s =>
      simp only [uWf, Bool.and_eq_true] at h
      obtain ⟨h1, h2⟩ := h
      have hflat : uFlat (UTok.lit s :: rest) = s ++ uFlat rest := by
        simp [uFlat, uChars]
      rw [hflat, extractAux_copy s (uFlat rest) h1, ih h2]
      simp [uRender]
    | url u =>
      simp only [uWf, Bool.and_eq_true, decide_eq_true_eq] at h
      obtain ⟨h1, h2⟩ := h
      have hflat : uFlat (UTok.url u :: rest) = u ++ uFlat rest := by
        simp [uFlat, uChars]
      rw [hflat, extractAux_cons_some h1, ih h2]
      simp [uRender]

/-- **C3.** `extract_urls` wraps every substring matching
`https?://\S+` (scheme, `://`, then a greedy nonempty run of
non-whitespace characters, stopping at the first whitespace) as a
markdown hyperlink whose visible label and link target are both the
matched substring verbatim — no normalization, trailing punctuation
included.  The text is presented as its leftmost-match token
decomposition. -/
theorem extract_urls_tokens (ts : List UTok) (h : uWf ts = true) :
    extract_urls ⟨uFlat ts⟩ = ⟨(ts.map uRender).flatten⟩ :=
  congrArg String.mk (extractAux_tokens ts h)

/-- Witness for C3: the URL keeps its trailing period in both the label
and the target of the produced link. -/
theorem extract_urls_tokens_witness :
    (uWf [UTok.lit "See ".data, UTok.url "http://a.com.".data,
        UTok.lit " now".data] = true)
      ∧ extract_urls "See http://a.com. now"
        = "See [http://a.com.](http://a.com.) now" :=
  ⟨by decide,
    extract_urls_tokens
      [UTok.lit "See ".data, UTok.url "http://a.com.".data,
        UTok.lit " now".data] (by decide)⟩

/-- A text in which the URL pattern matches at no position. -/
def urlFree : List Char → Bool
  | [] => true
  | c :: cs => (urlAt (c :: cs)).isNone && urlFree cs

theorem extractAux_urlFree :
    ∀ l : List Char, urlFree l = true → extractAux l = l := by
  intro l
  induction l with
  | nil => intro _; rfl
  | cons c cs ih =>
    intro h
    simp only [urlFree, Bool.and_eq_true, Option.isNone_iff_eq_none] at h
    obtain ⟨h1, h2⟩ := h
    rw [extractAux_cons_none h1, ih h2]

/-- **C4.** On text containing no URL substring (the pattern matches at
no position), `extract_urls` is the identity function. -/
theorem extract_urls_id_of_urlFree (text : String)
    (h : urlFree text.data = true) :
    extract_urls text = text := by
  have h2 := extractAux_urlFree text.data h
  cases text with
  | mk data => exact congrArg String.mk h2

/-- Witness for C4: ordinary prose (even containing `h`, `:`, `/`) is
returned unchanged. -/
theorem extract_urls_id_of_urlFree_witness :
    (urlFree ("no links here: just text/prose." : String).data = true)
      ∧ extract_urls "no links here: just text/prose."
        = "no links here: just text/prose." :=
  ⟨by decide, extract_urls_id_of_urlFree "no links here: just text/prose." (by decide)⟩

/-!
### Request payload construction and the streaming loop
(`generate_assistant_response` and its caller `main`)
-/

/-- A chat message `{role, content}`. -/
structure Message where
  role : String
  content : String
deriving DecidableEq

/-- The fixed system prompt of `generate_assistant_response` (the
content of the first element of `api_messages`). -/
def systemPromptContent : String :=
  "You are Scholar Seeker, a specialized AI assistant that ONLY provides information about scholarships. You must reject all other queries, regardless of their nature.
            STRICT RESPONSE PROTOCOL:
            \"CRITICAL: You MUST ONLY respond to queries explicitly about scholarships. For ANY other topic, reply ONLY with: \x27I exclusively provide scholarship information. Please ask a scholarship-related question.\x27\"
            1. Query Validation
                - Immediately assess if query is scholarship-related
                -Immediately reject if query is non-scholarship based
            2. Scholarship Information Scope:
                ONLY provide information about:
                - Scholarship eligibility
                - Application requirements
                - Award amounts
                - Deadlines
                - Application processes
                - Documentation needs
                - Scholarship-specific contact information
            3. Automatic Query Rejection Categories:
                Immediately reject queries about:
                - Any non-scholarship topic
            4. Valid Scholarship Query Response Structure:
                When providing scholarship information:
                - Scholarship Name
                - Provider Details
                - Award Amount
                - Eligibility Criteria
                - Application Requirements
                - Important Dates
                - Official Contact Information
                - Verification Source
            5. Verification Requirements:
                For all scholarship information:
                - Include last verification date
                - Official source link
                - Current status (active/inactive)
                - Administrator contact details
            6. Mandatory Disclaimer:
                Include with all scholarship information:
                \"This information is for reference only. Verify all details through official scholarship sources. Requirements and deadlines may change.\"
            7. Query Handling Protocol:
                Step 1: Assess if query is STRICTLY about scholarships
                Step 2: If NO - provide rejection response
                Step 3: If YES - request necessary details:
                    - Academic level
                    - Field of study
                    - Geographic eligibility
                    - Citizenship status
                Step 4: Provide structured scholarship information
            8. Zero Tolerance Policy:
                - No exceptions for non-scholarship queries
                - No partial answers to mixed queries
                - No general advice even if education-related
                - No referrals to other services
                - No engagement in general discussion
            Remember: You are ONLY a scholarship information system. Maintain absolute focus on scholarship-related queries and reject everything else immediately and firmly."

/-- The fixed system message prepended to every request. -/
def systemMessage : Message := ⟨"system", systemPromptContent⟩

/-- `api_messages` as built in `generate_assistant_response`: the fixed
system message, then `{"role": m["role"], "content": m["content"]}` for
each history message `m`, in order. -/
def build_api_messages (messages : List Message) : List Message :=
  [systemMessage] ++ messages.map (fun m => ⟨m.role, m.content⟩)

/-- **C5.** For every caller-supplied history, the messages field of the
request payload has the fixed system message as its first element —
never user-supplied content — and dropping that first element leaves
exactly the caller's messages in their original order. -/
theorem build_api_messages_system_first (messages : List Message) :
    (build_api_messages messages).head? = some systemMessage
      ∧ (build_api_messages messages).drop 1 = messages := by
  constructor
  · rfl
  · simp [build_api_messages]

/-- One chunk of the response stream, as consumed by the `for chunk in
response_stream` loop: the `citations` attribute (empty models absent
or falsy) and `chunk.choices[0].delta.content` (`none` models `None`). -/
structure Chunk where
  citations : List String
  deltaContent : Option String
deriving DecidableEq

/-- One iteration of the streaming loop: extend the citation list with
the chunk's citations, and append the chunk's delta content (if not
`None`) to the accumulated response. -/
def streamStep (acc : String × List String) (ch : Chunk) : String × List String :=
  (match ch.deltaContent with
    | some s => acc.1 ++ s
    | none => acc.1,
   acc.2 ++ ch.citations)

/-- The streaming loop of `generate_assistant_response`: the final
`full_response` and `citations` after consuming the whole stream. -/
def streamAccum (chunks : List Chunk) : String × List String :=
  chunks.foldl streamStep ("", [])

/-- The value `generate_assistant_response` returns on the success path:
`full_response` (the raw accumulated text). -/
def generate_assistant_response_ok (chunks : List Chunk) : String :=
  (streamAccum chunks).1

/-- The last text the function renders into its placeholder:
`content_with_links`, the accumulated text run through
`replace_citation_markers` with the accumulated citations. -/
def displayed_final (chunks : List Chunk) : String :=
  replace_citation_markers (streamAccum chunks).1 (streamAccum chunks).2

/-- The assistant turn `main` appends to the history:
`{"role": "assistant", "content": full_response}` with the return value
of `generate_assistant_response`. -/
def stored_assistant_turn (chunks : List Chunk) : Message :=
  ⟨"assistant", generate_assistant_response_ok chunks⟩

/-- **C6 counterexample.** On a stream delivering the text `[1]` and
one citation, the stored assistant turn holds the raw text `[1]`, not
the post-processed anchor text that was displayed: the claim that the
post-processed result is what is stored is false. -/
theorem stored_turn_not_postprocessed_cex :
    (stored_assistant_turn [⟨["http://a.com"], some "[1]"⟩]).content
      ≠ displayed_final [⟨["http://a.com"], some "[1]"⟩] := by
  decide

theorem streamAccum_fst_data :
    ∀ (chunks : List Chunk) (s : String) (cits : List String),
      ((chunks.foldl streamStep (s, cits)).1).data
        = s.data
            ++ (chunks.map (fun ch => (ch.deltaContent.getD "").data)).flatten := by
  intro chunks
  induction chunks with
  | nil =>
    intro s cits
    simp
  | cons ch rest ih =>
    intro s cits
    rw [List.foldl_cons]
    cases hd : ch.deltaContent with
    | none =>
      simp only [streamStep, hd]
      rw [ih]
      simp [hd, Option.getD]
    | some str =>
      simp only [streamStep, hd]
      rw [ih]
      simp [hd, Option.getD, String.data_append]

/-- **C6 (amended).** The text appended to the history as the assistant
turn is the raw accumulated stream text — the concatenation of the
non-`None` content deltas — not the result of the
`ResponsePostProcessor`: the post-processed text is only displayed, the
raw text is what is stored. -/
theorem stored_turn_is_raw_accum (chunks : List Chunk) :
    (stored_assistant_turn chunks).content.data
      = (chunks.map (fun ch => (ch.deltaContent.getD "").data)).flatten := by
  have h := streamAccum_fst_data chunks "" []
  simpa [stored_assistant_turn, generate_assistant_response_ok,
    streamAccum] using h

/-!
### Error handling of `generate_assistant_response`

The whole request/streaming body is wrapped in
`try: ... except Exception as e:`; the handler runs
`st.error(f"Research query error: {e}")` — a user-visible error box
containing the exception text — and returns the fixed apology string,
which the caller stores and displays as the assistant turn.
-/

/-- The fixed apology string returned from the `except` handler. -/
def apologyMessage : String :=
  "Apologies, an error occurred during research retrieval."

/-- The text `st.error` renders on failure, for exception text `e`. -/
def errorDisplay (e : String) : String := "Research query error: " ++ e

/-- All failure-path texts made visible to the user: the error box and
the returned apology (stored and rendered as the assistant turn). -/
def failureVisibleTexts (e : String) : List String :=
  [errorDisplay e, apologyMessage]

/-- The value `generate_assistant_response` returns on any failure. -/
def generate_assistant_response_err (_e : String) : String := apologyMessage

/-- **C7 counterexample.** On a failure with exception text `boom`, the
user-visible output includes the error box text
`Research query error: boom` — which contains the raw exception message
and is not the fixed apology string — so the claim that no raw
exception detail reaches user-visible output is false. -/
theorem error_display_leaks_cex :
    errorDisplay "boom" ∈ failureVisibleTexts "boom"
      ∧ errorDisplay "boom" = "Research query error: boom"
      ∧ errorDisplay "boom" ≠ apologyMessage := by
  refine ⟨by simp [failureVisibleTexts], by decide, by decide⟩

/-- **C7 (amended).** The failure text returned and stored as the
assistant turn is the fixed apology string, independent of the
exception; but the raw exception message is additionally shown to the
user in an `st.error` box. -/
theorem failure_result_fixed_apology (e e' : String) :
    generate_assistant_response_err e = apologyMessage
      ∧ generate_assistant_response_err e = generate_assistant_response_err e'
      ∧ errorDisplay e ∈ failureVisibleTexts e
      ∧ apologyMessage ∈ failureVisibleTexts e := by
  refine ⟨rfl, rfl, by simp [failureVisibleTexts], by simp [failureVisibleTexts]⟩

/-- Outcome of one turn when the transport yields `chunks` and then
either completes (`none`) or raises mid-stream (`some e`): the `except`
handler catches the exception and returns the apology, discarding the
accumulated `full_response`. -/
def runStreamResult (chunks : List Chunk) (err : Option String) : String :=
  match err with
  | none => (streamAccum chunks).1
  | some _ => apologyMessage

/-- **C8 counterexample.** With the fragment `Hello` received before a
mid-stream failure, the result of the turn is the fixed apology, not
the partial accumulated text: the partial text is discarded, so the
claim that it is reported as the result is false. -/
theorem midstream_partial_discarded_cex :
    runStreamResult [⟨[], some "Hello"⟩] (some "boom")
        ≠ (streamAccum [⟨[], some "Hello"⟩]).1
      ∧ runStreamResult [⟨[], some "Hello"⟩] (some "boom") = apologyMessage := by
  refine ⟨by decide, rfl⟩

/-- **C8 (amended).** A mid-stream transport failure does not crash the
session — the exception is caught and the turn completes with a result —
but that result is always the fixed apology string, whatever fragments
were accumulated: the partial text is discarded, not salvaged. -/
theorem midstream_result_apology (chunks : List Chunk) (e : String) :
    runStreamResult chunks (some e) = apologyMessage := rfl

/-!
### Retry-with-backoff client

This revision of the source uses the direct streaming client; the
retry-loop variant of the completion call lives only in the other
revisions described by the specification, so it is modelled from the
spec here.
-/

/-- Outcome of one transport attempt: an HTTP response with its status
code and body, or a network-level failure (connection refused, timeout,
DNS, ...). -/
inductive TransportOutcome where
  | http (status : Nat) (body : String)
  | netFailure
deriving DecidableEq

/-- Result of `sendWithRetry`: success with the response body and the
number of attempts consumed, fail-fast on a non-retryable HTTP status,
or exhaustion of the attempt budget.  Each carries the list of backoff
waits performed, in order. -/
inductive RetryResult where
  | ok (body : String) (attempts : Nat) (waits : List Nat)
  | httpError (status : Nat) (waits : List Nat)
  | exhausted (waits : List Nat)
deriving DecidableEq

/-- Record one backoff wait in front of a result's wait list. -/
def addWait (w : Nat) : RetryResult → RetryResult
  | .ok b a ws => .ok b a (w :: ws)
  | .httpError s ws => .httpError s (w :: ws)
  | .exhausted ws => .exhausted (w :: ws)

/-- Modelled from the spec: the attempt loop of `sendWithRetry`
(CompletionClient, spec §4.2), which is absent from this revision's
source.  `i` is the 0-based attempt index, the second argument the
remaining attempt budget.  Per attempt: a 2xx response returns
immediately; HTTP 429 and network failures wait `2^i` time units and
retry, consuming one attempt (failing as exhausted when no attempt
remains); any other HTTP status fails immediately without consuming the
remaining attempts. -/
def sendAux (transport : Nat → TransportOutcome) : Nat → Nat → RetryResult
  | _, 0 => .exhausted []
  | i, n + 1 =>
    match transport i with
    | .http s b =>
      if 200 ≤ s ∧ s < 300 then .ok b (i + 1) []
      else if s = 429 then
        if n = 0 then .exhausted []
        else addWait (2 ^ i) (sendAux transport (i + 1) n)
      else .httpError s []
    | .netFailure =>
      if n = 0 then .exhausted []
      else addWait (2 ^ i) (sendAux transport (i + 1) n)

/-- Modelled from the spec: `sendWithRetry(payload, headers,
maxAttempts)` restricted to its retry/backoff behaviour, parameterized
over an injectable transport giving the outcome of each attempt. -/
def sendWithRetry (transport : Nat → TransportOutcome) (maxAttempts : Nat) :
    RetryResult :=
  sendAux transport 0 maxAttempts

/-- **C9.** Given a transport that answers HTTP 429 on the first two
attempts and HTTP 200 on the third, `sendWithRetry` with the default
budget of 3 attempts succeeds on the third attempt with that response's
body, having consumed one attempt per 429 and waited `2^attemptIndex`
time units — 1, then 2 — before attempts 2 and 3. -/
theorem sendWithRetry_429_429_200 (transport : Nat → TransportOutcome)
    (b0 b1 b : String)
    (h0 : transport 0 = .http 429 b0)
    (h1 : transport 1 = .http 429 b1)
    (h2 : transport 2 = .http 200 b) :
    sendWithRetry transport 3 = .ok b 3 [1, 2] := by
  simp [sendWithRetry, sendAux, h0, h1, h2, addWait]

/-- Witness for C9 with a concrete mock transport. -/
theorem sendWithRetry_429_429_200_witness :
    ((fun i => if i < 2 then TransportOutcome.http 429 "rate limited"
        else TransportOutcome.http 200 "answer") 0
          = TransportOutcome.http 429 "rate limited")
      ∧ sendWithRetry
          (fun i => if i < 2 then TransportOutcome.http 429 "rate limited"
            else TransportOutcome.http 200 "answer") 3
        = .ok "answer" 3 [1, 2] :=
  ⟨rfl,
    sendWithRetry_429_429_200
      (fun i => if i < 2 then TransportOutcome.http 429 "rate limited"
        else TransportOutcome.http 200 "answer")
      "rate limited" "rate limited" "answer" rfl rfl rfl⟩

end ScholarSeeker
